import Mathlib

/-!
# Verification of the MD2Voice dialogue-to-speech pipeline

A shallow embedding of the MD2Voice application: the transcript parser and
state transitions of `App.tsx`, the TTS payload extraction of
`services/geminiService.ts` (`generateTTS`), and the audio pipeline
(`decodeBase64`, `decodeAudioData`, `audioBufferToWav` of
`services/audioUtils.ts`, whose source is not in the repository snapshot and
is therefore modelled from the specification).

Strings are modelled as `List Char`; JavaScript numbers appearing in the
audio path are modelled as exact rationals (`ℚ`), so `Math.round` is the
half-up `round` on `ℚ`; 16-bit PCM values are integers (`ℤ`) serialized in
two-complement form via explicit `% 2^16`.
-/

namespace MD2Voice

/-- The set of characters matched by the JavaScript class `\s` (and removed by
`String.prototype.trim`): ASCII whitespace, NBSP, the Unicode `Zs` spaces,
line/paragraph separators and the BOM. -/
def isJsSpace (c : Char) : Bool :=
  c = ' ' || c = '\t' || c = '\n' || c = '\r' ||
  c.toNat = 0x0B || c.toNat = 0x0C || c.toNat = 0xA0 || c.toNat = 0x1680 ||
  (0x2000 ≤ c.toNat && c.toNat ≤ 0x200A) ||
  c.toNat = 0x2028 || c.toNat = 0x2029 || c.toNat = 0x202F ||
  c.toNat = 0x205F || c.toNat = 0x3000 || c.toNat = 0xFEFF

/-- JavaScript `String.prototype.trim`: drop leading and trailing whitespace. -/
def jsTrim (s : List Char) : List Char :=
  ((s.dropWhile isJsSpace).reverse.dropWhile isJsSpace).reverse

/-- ASCII lower-casing, the canonicalization performed by a case-insensitive
(non-Unicode) JavaScript regex on an ASCII pattern. -/
def lowerAscii (c : Char) : Char :=
  if 'A' ≤ c && c ≤ 'Z' then Char.ofNat (c.toNat + 32) else c

/-- Characters matched by `.` in a JavaScript regex without the `s` flag:
everything except the four line terminators. -/
def isDotChar (c : Char) : Bool :=
  !(c = '\n' || c = '\r' || c.toNat = 0x2028 || c.toNat = 0x2029)

def userTag : List Char := ['u', 's', 'e', 'r', ':']

def assistantTag : List Char := ['a', 's', 's', 'i', 's', 't', 'a', 'n', 't', ':']

/-- The test `s.match(/^tag\s*(.*)/i)` for an ASCII `tag`: if `s` starts with `tag`
case-insensitively, return the capture group — the rest of `s` after the tag
with leading whitespace dropped, up to the first line terminator. -/
def matchTag (tag s : List Char) : Option (List Char) :=
  if (s.take tag.length).map lowerAscii = tag then
    some (((s.drop tag.length).dropWhile isJsSpace).takeWhile isDotChar)
  else none

inductive Speaker
  | user
  | assistant
deriving DecidableEq, Repr

/-- Structure `DialogueLine` of `types.ts`. -/
structure DialogueLine where
  speaker : Speaker
  text : List Char
deriving DecidableEq, Repr

/-- The two regex tests of `parseMarkdown` (`App.tsx` lines 44-45), user
pattern tried first as in the source. -/
def matchLine (s : List Char) : Option (Speaker × List Char) :=
  match matchTag userTag s with
  | some cap => some (Speaker.user, cap)
  | none =>
    match matchTag assistantTag s with
    | some cap => some (Speaker.assistant, cap)
    | none => none

/-- JavaScript split of the text on the newline character (note that the
split of the empty string is a one-element list holding the empty string). -/
def splitLines : List Char → List (List Char)
  | [] => [[]]
  | c :: rest =>
    if c = '\n' then [] :: splitLines rest
    else
      match splitLines rest with
      | [] => [[c]]
      | l :: ls => (c :: l) :: ls

/-- The continuation append of `App.tsx` line 53:
appending a space and the trimmed line to the text of the last parsed turn. -/
def appendCont (t l : List Char) : List Char := t ++ ' ' :: l

/-- The `lines.forEach` loop of `parseMarkdown` (`App.tsx` lines 40-55),
with the accumulated turns kept in reverse order (head = most recent turn)
so that the in-place mutation of the last element is a head update. -/
def parseRev (acc : List DialogueLine) : List (List Char) → List DialogueLine
  | [] => acc
  | line :: rest =>
    let trimmed := jsTrim line
    if trimmed = [] then parseRev acc rest
    else
      match matchLine trimmed with
      | some (sp, cap) =>
          parseRev ({ speaker := sp, text := jsTrim cap } :: acc) rest
      | none =>
        match acc with
        | [] => parseRev [] rest
        | d :: ds =>
            parseRev ({ speaker := d.speaker, text := appendCont d.text trimmed } :: ds) rest

/-- The list of dialogue turns produced by `parseMarkdown` (`App.tsx`)
on the given file content. -/
def parseMarkdown (text : List Char) : List DialogueLine :=
  (parseRev [] (splitLines text)).reverse

/-! ## The audio pipeline

`services/audioUtils.ts` is not part of the repository snapshot (only its
callers in `App.tsx` are), so the three operations below are modelled from
the specification, §4 "Component design". Samples are exact rationals and
bytes are naturals below 256. -/

/-- Modelled from the spec (§9, §3 "AudioBuffer"): the in-memory decoded
audio form — sample rate, channel count, frame count, and one sample array
per channel. -/
structure AudioBuffer where
  sampleRate : ℕ
  numChannels : ℕ
  length : ℕ
  channels : List (List ℚ)
deriving DecidableEq, Repr

/-- Sample of frame `i`, channel `c` (0 outside the stored arrays). -/
def sampleAt (buf : AudioBuffer) (i c : ℕ) : ℚ :=
  (buf.channels.getD c []).getD i 0

/-- Clamp a sample to [-1, 1] (spec §4.2 "clamp to [-1.0, 1.0]"). -/
def clampSample (s : ℚ) : ℚ := max (-1) (min 1 s)

/-- Modelled from the spec (§4.2): clamp to [-1, 1], then scale
asymmetrically — `round(sample * 32768)` when negative, `round(sample *
32767)` otherwise (`Math.round` is half-up, as is `round` on `ℚ`). -/
def encodeSample (s : ℚ) : ℤ :=
  let c := clampSample s
  if c < 0 then round (c * 32768) else round (c * 32767)

/-- Little-endian bytes of a 16-bit value (two-complement form for negatives). -/
def int16le (v : ℤ) : List ℕ :=
  [(v % 65536).toNat % 256, (v % 65536).toNat / 256]

/-- Little-endian bytes of a 16-bit header field. -/
def le16 (n : ℕ) : List ℕ := [n % 256, n / 256 % 256]

/-- Little-endian bytes of a 32-bit header field. -/
def le32 (n : ℕ) : List ℕ :=
  [n % 256, n / 256 % 256, n / 65536 % 256, n / 16777216 % 256]

/-- Modelled from the spec (§4.2, layout table): the 44-byte RIFF/WAVE
header. The ASCII literals are "RIFF", "WAVE", "fmt " and "data". -/
def wavHeader (buf : AudioBuffer) : List ℕ :=
  let dataSize := buf.length * buf.numChannels * 2
  [82, 73, 70, 70] ++ le32 (36 + dataSize) ++
  [87, 65, 86, 69] ++ [102, 109, 116, 32] ++ le32 16 ++ le16 1 ++
  le16 buf.numChannels ++ le32 buf.sampleRate ++
  le32 (buf.sampleRate * buf.numChannels * 2) ++ le16 (buf.numChannels * 2) ++
  le16 16 ++ [100, 97, 116, 97] ++ le32 dataSize

/-- Modelled from the spec (§4.2): interleaved 16-bit little-endian PCM data —
for each frame, for each channel, the two bytes of the encoded sample. -/
def pcmData (buf : AudioBuffer) : List ℕ :=
  (List.range buf.length).flatMap fun i =>
    (List.range buf.numChannels).flatMap fun c =>
      int16le (encodeSample (sampleAt buf i c))

/-- Modelled from the spec (§4.2 `audioBufferToWav`): the WavFileBlob —
44-byte header followed by the raw PCM bytes. -/
def audioBufferToWav (buf : AudioBuffer) : List ℕ :=
  wavHeader buf ++ pcmData buf

/-- Signed 16-bit little-endian value of two bytes. -/
def int16OfBytes (b0 b1 : ℕ) : ℤ :=
  let u := b0 % 256 + (b1 % 256) * 256
  if u < 32768 then (u : ℤ) else (u : ℤ) - 65536

/-- Modelled from the spec (§4.1 `decodeAudioData`, total core): read the
buffer two bytes at a time as signed little-endian 16-bit integers,
normalize by dividing by 32768; frame `i`, channel `c` is read at byte
offset `(i * channels + c) * 2`; frame count is `byteLength / 2 / channels`. -/
def decodeAudioDataCore (bytes : List ℕ) (rate numCh : ℕ) : AudioBuffer :=
  let frames := bytes.length / 2 / numCh
  { sampleRate := rate
    numChannels := numCh
    length := frames
    channels :=
      (List.range numCh).map fun c =>
        (List.range frames).map fun i =>
          ((int16OfBytes (bytes.getD ((i * numCh + c) * 2) 0)
              (bytes.getD ((i * numCh + c) * 2 + 1) 0) : ℤ) : ℚ) / 32768 }

/-- Modelled from the spec (§4.1): `decodeAudioData` fails with a
`DecodeError` when the buffer holds zero frames, and otherwise produces the
decoded AudioBuffer. -/
def decodeAudioData (bytes : List ℕ) (rate numCh : ℕ) :
    Except String AudioBuffer :=
  if bytes.length / 2 / numCh = 0 then
    Except.error "DecodeError: audio buffer holds zero frames"
  else
    Except.ok (decodeAudioDataCore bytes rate numCh)

/-- Value of a base64 alphabet character. -/
def b64Val (c : Char) : Option ℕ :=
  if 'A' ≤ c && c ≤ 'Z' then some (c.toNat - 65)
  else if 'a' ≤ c && c ≤ 'z' then some (c.toNat - 97 + 26)
  else if '0' ≤ c && c ≤ '9' then some (c.toNat - 48 + 52)
  else if c = '+' then some 62
  else if c = '/' then some 63
  else none

/-- Bytes of a list of 6-bit values (a trailing group of 2 or 3 values
yields 1 or 2 bytes, as after stripping base64 padding). -/
def b64Bytes : List ℕ → List ℕ
  | a :: b :: c :: d :: rest =>
      (a * 4 + b / 16) :: ((b % 16) * 16 + c / 4) :: ((c % 4) * 64 + d) :: b64Bytes rest
  | [a, b] => [a * 4 + b / 16]
  | [a, b, c] => [a * 4 + b / 16, (b % 16) * 16 + c / 4]
  | _ => []

/-- Modelled from the spec (§4.1 `decodeBase64`): decode a base64 string to
its byte buffer; any invalid character fails with a `DecodeError`. -/
def decodeBase64 (s : String) : Except String (List ℕ) :=
  let core := (s.toList.reverse.dropWhile (· = '=')).reverse
  match core.mapM b64Val with
  | none => Except.error "DecodeError: invalid base64"
  | some vals =>
      if vals.length % 4 = 1 then Except.error "DecodeError: invalid base64"
      else Except.ok (b64Bytes vals)

/-! ## The TTS service call (`services/geminiService.ts`) -/

/-- The nested optional response shape read by `generateTTS`:
`response.candidates?.[0]?.content?.parts?.[0]?.inlineData?.data`. -/
structure InlineData where
  data : Option String
deriving DecidableEq, Repr

structure ResponsePart where
  inlineData : Option InlineData
deriving DecidableEq, Repr

structure ResponseContent where
  parts : Option (List ResponsePart)
deriving DecidableEq, Repr

structure ResponseCandidate where
  content : Option ResponseContent
deriving DecidableEq, Repr

structure GenResponse where
  candidates : Option (List ResponseCandidate)
deriving DecidableEq, Repr

/-- The optional-chain `response.candidates?.[0]?.content?.parts?.[0]?.inlineData?.data`
of `geminiService.ts` line 46. -/
def extractAudioData (r : GenResponse) : Option String :=
  ((((r.candidates.bind List.head?).bind ResponseCandidate.content).bind
      ResponseContent.parts).bind List.head?).bind
    (fun p => p.inlineData.bind InlineData.data)

/-- Function `generateTTS` (`geminiService.ts` lines 46-51) applied to the remote
response: `if (!base64Audio) throw new Error(...)` — note JavaScript
truthiness makes the empty string falsy — otherwise return the payload. -/
def generateTTS (r : GenResponse) : Except String String :=
  match extractAudioData r with
  | none => Except.error "No audio data received from Gemini API"
  | some d =>
      if d = "" then Except.error "No audio data received from Gemini API"
      else Except.ok d

/-! ## Application state and transitions (`App.tsx`) -/

/-- Enum `AppStatus` of `types.ts`. -/
inductive AppStatus
  | IDLE
  | PARSING
  | GENERATING
  | SUCCESS
  | ERROR
deriving DecidableEq, Repr

/-- Structure `SpeakerConfig` of `types.ts`. -/
structure SpeakerConfig where
  name : String
  voice : String
deriving DecidableEq, Repr

/-- Structure `AudioSession` of `types.ts`: decoded buffer, WAV blob bytes, object URL. -/
structure AudioSession where
  buffer : AudioBuffer
  blob : List ℕ
  url : String
deriving DecidableEq, Repr

/-- The React state of `App.tsx` (lines 9-14). -/
structure AppState where
  status : AppStatus
  error : Option String
  dialogue : List DialogueLine
  userConfig : SpeakerConfig
  assistantConfig : SpeakerConfig
  audioSession : Option AudioSession
deriving Repr

/-- The state update performed by `parseMarkdown` (`App.tsx` lines 57-64):
zero parsed turns set an error message and the ERROR status; otherwise the
parsed turns replace the dialogue, the status returns to IDLE and the prior
audio session is cleared. -/
def parseMarkdownUpdate (s : AppState) (text : List Char) : AppState :=
  let parsed := parseMarkdown text
  if parsed = [] then
    { s with
      error := some "No valid \x27User:\x27 or \x27Assistant:\x27 lines found in the file."
      status := AppStatus.ERROR }
  else
    { s with
      dialogue := parsed
      status := AppStatus.IDLE
      audioSession := none }

/-- The fallible core of `handleGenerate` (`App.tsx` lines 73-77): awaited
TTS result, base64 decode, audio decode. The encode step
(`audioBufferToWav`) is total. -/
def runPipeline (tts : Except String String) : Except String AudioBuffer := do
  let base64 ← tts
  let bytes ← decodeBase64 base64
  decodeAudioData bytes 24000 1

/-- Function `handleGenerate` (`App.tsx` lines 67-91) as a transition on the state,
given the outcome of the awaited remote TTS call and the host function
`URL.createObjectURL`. Returns the post-transition state and whether a
remote generation request was issued. On failure the catch block keeps the
prior `audioSession` and records `err.message` (or the fallback text when
the message is empty, per `err.message || "..."`). -/
def handleGenerate (mkUrl : List ℕ → String) (s : AppState)
    (tts : Except String String) : AppState × Bool :=
  if s.dialogue = [] then (s, false)
  else
    match runPipeline tts with
    | Except.error msg =>
        ({ s with
            status := AppStatus.ERROR
            error := some (if msg = "" then
              "An error occurred during audio generation." else msg) }, true)
    | Except.ok buf =>
        let blob := audioBufferToWav buf
        ({ s with
            status := AppStatus.SUCCESS
            error := none
            audioSession := some ⟨buf, blob, mkUrl blob⟩ }, true)

/-! ## Helper lemmas on `dropWhile` and `jsTrim` -/

theorem dropWhile_length_le {α : Type} (p : α → Bool) :
    ∀ l : List α, (l.dropWhile p).length ≤ l.length := by
  intro l
  induction l with
  | nil => simp
  | cons a t ih =>
    by_cases h : p a
    · simpa [List.dropWhile_cons, h] using Nat.le_succ_of_le ih
    · simp [List.dropWhile_cons, h]

theorem head_false_of_dropWhile_self {α : Type} {p : α → Bool} {a : α}
    {t : List α} (h : (a :: t).dropWhile p = a :: t) : p a = false := by
  by_cases hp : p a
  · exfalso
    rw [List.dropWhile_cons_of_pos hp] at h
    have := dropWhile_length_le p t
    rw [h] at this
    simp at this
  · simpa using hp

theorem dropWhile_idem {α : Type} (p : α → Bool) (l : List α) :
    (l.dropWhile p).dropWhile p = l.dropWhile p := by
  induction l with
  | nil => simp
  | cons a t ih =>
    by_cases h : p a
    · simpa [List.dropWhile_cons, h] using ih
    · simp [List.dropWhile_cons, h]

theorem dropWhile_reverse_stable {α : Type} (p : α → Bool) (l : List α)
    (h : l.dropWhile p = l) :
    ((l.reverse.dropWhile p).reverse).dropWhile p = (l.reverse.dropWhile p).reverse := by
  cases l with
  | nil => simp
  | cons a t =>
    have ha : p a = false := head_false_of_dropWhile_self h
    have : (a :: t).reverse = t.reverse ++ [a] := by simp
    rw [this, List.dropWhile_append]
    by_cases he : (t.reverse.dropWhile p).isEmpty
    · simp [he, List.dropWhile_cons, ha]
    · rw [if_neg he]
      have h2 : (t.reverse.dropWhile p ++ [a]).reverse
          = a :: (t.reverse.dropWhile p).reverse := by simp
      rw [h2, List.dropWhile_cons_of_neg (by simp [ha])]

/-- The front of a trimmed string is trimmed. -/
theorem jsTrim_dropWhile (s : List Char) :
    (jsTrim s).dropWhile isJsSpace = jsTrim s := by
  unfold jsTrim
  exact dropWhile_reverse_stable isJsSpace (s.dropWhile isJsSpace)
    (dropWhile_idem isJsSpace s)

/-- The back of a trimmed string is trimmed. -/
theorem jsTrim_reverse_dropWhile (s : List Char) :
    (jsTrim s).reverse.dropWhile isJsSpace = (jsTrim s).reverse := by
  unfold jsTrim
  rw [List.reverse_reverse]
  exact dropWhile_idem isJsSpace (s.dropWhile isJsSpace).reverse

theorem jsTrim_of_trimmed {l : List Char} (h1 : l.dropWhile isJsSpace = l)
    (h2 : l.reverse.dropWhile isJsSpace = l.reverse) : jsTrim l = l := by
  unfold jsTrim
  rw [h1, h2, List.reverse_reverse]

theorem jsTrim_idem (s : List Char) : jsTrim (jsTrim s) = jsTrim s :=
  jsTrim_of_trimmed (jsTrim_dropWhile s) (jsTrim_reverse_dropWhile s)

/-! ## The parser characterized structurally (claim C4) -/

/-- A line on which neither speaker pattern matches. -/
def noMatch (l : List Char) : Bool := (matchLine l).isNone

/-- The trimmed, non-blank lines of the input — the lines the parser acts on. -/
def cleanItems (ls : List (List Char)) : List (List Char) :=
  (ls.map jsTrim).filter fun l => !l.isEmpty

/-- The behavior of the parser as the claim states it, written structurally rather
than as the fold of the source: one dialogue turn per line matching a speaker
pattern, whose text is the trimmed capture followed by each subsequent
non-matching non-blank line, space-joined; a non-matching line with no
preceding recognized turn has no "most recently recognized turn" and is
discarded. Operates on the trimmed non-blank lines. -/
def specParse : List (List Char) → List DialogueLine
  | [] => []
  | l :: rest =>
    match matchLine l with
    | none => specParse rest
    | some (sp, cap) =>
        { speaker := sp,
          text := (rest.takeWhile noMatch).foldl appendCont (jsTrim cap) }
          :: specParse (rest.dropWhile noMatch)
termination_by ls => ls.length
decreasing_by
  all_goals simp only [List.length_cons]
  · omega
  · exact Nat.lt_succ_of_le (dropWhile_length_le noMatch _)

theorem matchLine_nil : matchLine [] = none := rfl

/-! Step equations for `parseRev` and `specParse`. -/

theorem parseRev_nil (acc : List DialogueLine) : parseRev acc [] = acc := rfl

theorem parseRev_cons_blank (acc : List DialogueLine) (line : List Char)
    (rest : List (List Char)) (h : jsTrim line = []) :
    parseRev acc (line :: rest) = parseRev acc rest := by
  simp [parseRev, h]

theorem parseRev_cons_match (acc : List DialogueLine) (line : List Char)
    (rest : List (List Char)) (sp : Speaker) (cap : List Char)
    (h : jsTrim line ≠ []) (hm : matchLine (jsTrim line) = some (sp, cap)) :
    parseRev acc (line :: rest) =
      parseRev ({ speaker := sp, text := jsTrim cap } :: acc) rest := by
  simp [parseRev, h, hm]

theorem parseRev_cons_cont_nil (line : List Char) (rest : List (List Char))
    (h : jsTrim line ≠ []) (hm : matchLine (jsTrim line) = none) :
    parseRev [] (line :: rest) = parseRev [] rest := by
  simp [parseRev, h, hm]

theorem parseRev_cons_cont (d : DialogueLine) (ds : List DialogueLine)
    (line : List Char) (rest : List (List Char))
    (h : jsTrim line ≠ []) (hm : matchLine (jsTrim line) = none) :
    parseRev (d :: ds) (line :: rest) =
      parseRev ({ speaker := d.speaker, text := appendCont d.text (jsTrim line) } :: ds)
        rest := by
  simp [parseRev, h, hm]

theorem specParse_nil : specParse [] = [] := by
  rw [specParse]

theorem specParse_cons_none (l : List Char) (rest : List (List Char))
    (hm : matchLine l = none) : specParse (l :: rest) = specParse rest := by
  rw [specParse, hm]

theorem specParse_cons_some (l : List Char) (rest : List (List Char))
    (sp : Speaker) (cap : List Char) (hm : matchLine l = some (sp, cap)) :
    specParse (l :: rest) =
      { speaker := sp,
        text := (rest.takeWhile noMatch).foldl appendCont (jsTrim cap) }
        :: specParse (rest.dropWhile noMatch) := by
  rw [specParse, hm]

/-- Processing the raw lines equals processing the trimmed non-blank lines:
the parser trims every line, skips blank ones, and trimming is idempotent. -/
theorem parseRev_cleanItems :
    ∀ (ls : List (List Char)) (acc : List DialogueLine),
      parseRev acc ls = parseRev acc (cleanItems ls) := by
  intro ls
  induction ls with
  | nil => intro acc; rfl
  | cons l rest ih =>
    intro acc
    by_cases h : jsTrim l = []
    · have hclean : cleanItems (l :: rest) = cleanItems rest := by
        simp [cleanItems, List.filter_cons, h]
      rw [hclean, parseRev_cons_blank acc l rest h]
      exact ih acc
    · have hclean : cleanItems (l :: rest) = jsTrim l :: cleanItems rest := by
        simp [cleanItems, List.filter_cons, h]
      rw [hclean]
      have hid : jsTrim (jsTrim l) = jsTrim l := jsTrim_idem l
      cases hm : matchLine (jsTrim l) with
      | some pr =>
        rw [parseRev_cons_match acc l rest pr.1 pr.2 h (by rw [hm]),
          parseRev_cons_match acc (jsTrim l) (cleanItems rest) pr.1 pr.2
            (by rw [hid]; exact h) (by rw [hid, hm])]
        exact ih _
      | none =>
        cases acc with
        | nil =>
          rw [parseRev_cons_cont_nil l rest h hm,
            parseRev_cons_cont_nil (jsTrim l) (cleanItems rest)
              (by rw [hid]; exact h) (by rw [hid]; exact hm)]
          exact ih []
        | cons d ds =>
          rw [parseRev_cons_cont d ds l rest h hm,
            parseRev_cons_cont d ds (jsTrim l) (cleanItems rest)
              (by rw [hid]; exact h) (by rw [hid]; exact hm), hid]
          exact ih _

/-- Core equivalence between the source fold (`parseRev`) and the structural
description (`specParse`), for trimmed non-blank items and an arbitrary
accumulator: pending continuations extend the accumulator head, the most
recently recognized turn. -/
theorem parseRev_specParse :
    ∀ (items : List (List Char)), (∀ l ∈ items, jsTrim l = l ∧ l ≠ []) →
      ∀ acc : List DialogueLine,
        (parseRev acc items).reverse =
          match acc with
          | [] => specParse items
          | d :: ds =>
              ds.reverse ++
                ({ speaker := d.speaker,
                   text := (items.takeWhile noMatch).foldl appendCont d.text }
                  :: specParse (items.dropWhile noMatch)) := by
  intro items
  induction items with
  | nil =>
    intro _ acc
    cases acc with
    | nil => simp [parseRev_nil, specParse_nil]
    | cons d ds => simp [parseRev_nil, specParse_nil]
  | cons l rest ih =>
    intro H acc
    obtain ⟨hl, hne⟩ := H l (List.mem_cons_self l rest)
    have hne2 : jsTrim l ≠ [] := by rw [hl]; exact hne
    have Hrest : ∀ l2 ∈ rest, jsTrim l2 = l2 ∧ l2 ≠ [] := fun l2 h2 =>
      H l2 (List.mem_cons_of_mem l h2)
    cases hm : matchLine l with
    | some pr =>
      obtain ⟨sp, cap⟩ := pr
      have hnm : noMatch l = false := by simp [noMatch, hm]
      rw [parseRev_cons_match acc l rest sp cap hne2 (by rw [hl]; exact hm),
        ih Hrest ({ speaker := sp, text := jsTrim cap } :: acc)]
      cases acc with
      | nil =>
        simp only [List.reverse_nil, List.nil_append]
        rw [specParse_cons_some l rest sp cap hm]
      | cons d ds =>
        simp [List.takeWhile_cons, List.dropWhile_cons, hnm,
          specParse_cons_some l rest sp cap hm]
    | none =>
      have hnm : noMatch l = true := by simp [noMatch, hm]
      cases acc with
      | nil =>
        rw [parseRev_cons_cont_nil l rest hne2 (by rw [hl]; exact hm),
          ih Hrest [], specParse_cons_none l rest hm]
      | cons d ds =>
        rw [parseRev_cons_cont d ds l rest hne2 (by rw [hl]; exact hm),
          ih Hrest _]
        simp [List.takeWhile_cons, List.dropWhile_cons, hnm, hl]

/-- Function `parseMarkdown` equals the structural description on the trimmed
non-blank lines. -/
theorem parseMarkdown_eq_specParse (text : List Char) :
    parseMarkdown text = specParse (cleanItems (splitLines text)) := by
  unfold parseMarkdown
  rw [parseRev_cleanItems]
  rw [parseRev_specParse (cleanItems (splitLines text)) ?_ []]
  intro l hl
  simp only [cleanItems, List.mem_filter, List.mem_map] at hl
  obtain ⟨⟨raw, _, rfl⟩, hne⟩ := hl
  refine ⟨jsTrim_idem raw, ?_⟩
  simpa using hne

/-! ## Emptiness of the parse result (claims C6, C8) -/

theorem parseRev_length_ge :
    ∀ (ls : List (List Char)) (acc : List DialogueLine),
      acc.length ≤ (parseRev acc ls).length := by
  intro ls
  induction ls with
  | nil => intro acc; exact Nat.le_refl _
  | cons l rest ih =>
    intro acc
    by_cases h : jsTrim l = []
    · rw [parseRev_cons_blank acc l rest h]
      exact ih acc
    · cases hm : matchLine (jsTrim l) with
      | some pr =>
        rw [parseRev_cons_match acc l rest pr.1 pr.2 h (by rw [hm])]
        exact Nat.le_trans (Nat.le_succ _)
          (ih ({ speaker := pr.1, text := jsTrim pr.2 } :: acc))
      | none =>
        cases acc with
        | nil =>
          rw [parseRev_cons_cont_nil l rest h hm]
          exact Nat.zero_le _
        | cons d ds =>
          rw [parseRev_cons_cont d ds l rest h hm]
          exact ih
            ({ speaker := d.speaker, text := appendCont d.text (jsTrim l) } :: ds)

/-- With no recognized line, the fold accumulates nothing. -/
theorem parseRev_nil_of_noMatch :
    ∀ ls : List (List Char), (∀ l ∈ ls, matchLine (jsTrim l) = none) →
      parseRev [] ls = [] := by
  intro ls
  induction ls with
  | nil => intro _; rfl
  | cons l rest ih =>
    intro H
    have hrest := fun l2 h2 => H l2 (List.mem_cons_of_mem l h2)
    by_cases h : jsTrim l = []
    · rw [parseRev_cons_blank [] l rest h]
      exact ih hrest
    · rw [parseRev_cons_cont_nil l rest h (H l (List.mem_cons_self l rest))]
      exact ih hrest

/-- A recognized line forces a non-empty parse result. -/
theorem parseRev_ne_nil_of_match :
    ∀ (ls : List (List Char)) (acc : List DialogueLine),
      (∃ l ∈ ls, (matchLine (jsTrim l)).isSome) → parseRev acc ls ≠ [] := by
  intro ls
  induction ls with
  | nil =>
    intro acc h
    simp at h
  | cons l rest ih =>
    intro acc h
    obtain ⟨l2, hmem, hsome⟩ := h
    rcases List.mem_cons.mp hmem with rfl | hmem2
    · have hne : jsTrim l2 ≠ [] := by
        intro he
        rw [he, matchLine_nil] at hsome
        simp at hsome
      cases hm : matchLine (jsTrim l2) with
      | none =>
        rw [hm] at hsome
        simp at hsome
      | some pr =>
        rw [parseRev_cons_match acc l2 rest pr.1 pr.2 hne (by rw [hm])]
        intro hcontra
        have hlen := parseRev_length_ge rest
          ({ speaker := pr.1, text := jsTrim pr.2 } :: acc)
        rw [hcontra] at hlen
        simp at hlen
    · by_cases hb : jsTrim l = []
      · rw [parseRev_cons_blank acc l rest hb]
        exact ih acc ⟨l2, hmem2, hsome⟩
      · cases hm : matchLine (jsTrim l) with
        | some pr =>
          rw [parseRev_cons_match acc l rest pr.1 pr.2 hb (by rw [hm])]
          exact ih _ ⟨l2, hmem2, hsome⟩
        | none =>
          cases acc with
          | nil =>
            rw [parseRev_cons_cont_nil l rest hb hm]
            exact ih [] ⟨l2, hmem2, hsome⟩
          | cons d ds =>
            rw [parseRev_cons_cont d ds l rest hb hm]
            exact ih _ ⟨l2, hmem2, hsome⟩

/-! ## Whitespace shape of parsed turn texts (claim C10) -/

/-- Invariant maintained by the parser for every accumulated turn text:
the text has no trailing whitespace, and it has no leading whitespace
except when the capture of the recognized line was empty and continuations were
appended, in which case it is exactly one space followed by a trimmed
non-empty string. -/
def TidyInv (t : List Char) : Prop :=
  (t.dropWhile isJsSpace = t ∨
    ∃ u, t = ' ' :: u ∧ u.dropWhile isJsSpace = u ∧ u ≠ []) ∧
  t.reverse.dropWhile isJsSpace = t.reverse

theorem tidyInv_jsTrim (s : List Char) : TidyInv (jsTrim s) :=
  ⟨Or.inl (jsTrim_dropWhile s), jsTrim_reverse_dropWhile s⟩

theorem tidyInv_appendCont {t l : List Char} (ht : TidyInv t)
    (hl1 : l.dropWhile isJsSpace = l)
    (hl2 : l.reverse.dropWhile isJsSpace = l.reverse)
    (hlne : l ≠ []) : TidyInv (appendCont t l) := by
  obtain ⟨hfront, hback⟩ := ht
  constructor
  · rcases hfront with hf | ⟨u, rfl, hu, hune⟩
    · cases t with
      | nil =>
        exact Or.inr ⟨l, rfl, hl1, hlne⟩
      | cons a t2 =>
        have ha : isJsSpace a = false := head_false_of_dropWhile_self hf
        left
        show ((a :: t2) ++ ' ' :: l).dropWhile isJsSpace = (a :: t2) ++ ' ' :: l
        rw [List.cons_append, List.dropWhile_cons_of_neg (by simp [ha])]
    · right
      refine ⟨u ++ ' ' :: l, by simp [appendCont], ?_, by simp⟩
      cases u with
      | nil => exact absurd rfl hune
      | cons b u2 =>
        have hb : isJsSpace b = false := head_false_of_dropWhile_self hu
        rw [List.cons_append, List.dropWhile_cons_of_neg (by simp [hb])]
  · cases hrev : l.reverse with
    | nil =>
      exact absurd (by simpa using congrArg List.reverse hrev) hlne
    | cons b m =>
      have hb : isJsSpace b = false := by
        rw [hrev] at hl2
        exact head_false_of_dropWhile_self hl2
      have hshape : (appendCont t l).reverse = b :: (m ++ ' ' :: t.reverse) := by
        simp [appendCont, hrev]
      rw [hshape, List.dropWhile_cons_of_neg (by simp [hb])]

theorem isJsSpace_space : isJsSpace ' ' = true := rfl

/-- From the invariant: each text is its own trim, or a single space
followed by its own trim. -/
theorem tidy_of_inv {t : List Char} (h : TidyInv t) :
    t = jsTrim t ∨ t = ' ' :: jsTrim t := by
  obtain ⟨hfront, hback⟩ := h
  rcases hfront with hf | ⟨u, rfl, hu, hune⟩
  · exact Or.inl (jsTrim_of_trimmed hf hback).symm
  · right
    have hub : u.reverse.dropWhile isJsSpace = u.reverse := by
      cases hrev : u.reverse with
      | nil => simp
      | cons b m =>
        have : (' ' :: u).reverse = (b :: m) ++ [' '] := by simp [hrev]
        rw [this] at hback
        have hb : isJsSpace b = false := by
          rw [List.cons_append] at hback
          exact head_false_of_dropWhile_self hback
        rw [List.dropWhile_cons_of_neg (by simp [hb])]
    have : jsTrim (' ' :: u) = u := by
      unfold jsTrim
      rw [List.dropWhile_cons_of_pos isJsSpace_space, hu, hub, List.reverse_reverse]
    rw [this]

/-- The invariant holds for every turn the fold produces. -/
theorem parseRev_tidy :
    ∀ (ls : List (List Char)) (acc : List DialogueLine),
      (∀ d ∈ acc, TidyInv d.text) →
      ∀ d ∈ parseRev acc ls, TidyInv d.text := by
  intro ls
  induction ls with
  | nil =>
    intro acc hacc d hd
    exact hacc d hd
  | cons l rest ih =>
    intro acc hacc d hd
    by_cases h : jsTrim l = []
    · rw [parseRev_cons_blank acc l rest h] at hd
      exact ih acc hacc d hd
    · cases hm : matchLine (jsTrim l) with
      | some pr =>
        rw [parseRev_cons_match acc l rest pr.1 pr.2 h (by rw [hm])] at hd
        refine ih _ ?_ d hd
        intro d2 hd2
        rcases List.mem_cons.mp hd2 with rfl | hd3
        · exact tidyInv_jsTrim pr.2
        · exact hacc d2 hd3
      | none =>
        cases acc with
        | nil =>
          rw [parseRev_cons_cont_nil l rest h hm] at hd
          exact ih [] (by simp) d hd
        | cons d0 ds =>
          rw [parseRev_cons_cont d0 ds l rest h hm] at hd
          refine ih _ ?_ d hd
          intro d2 hd2
          rcases List.mem_cons.mp hd2 with rfl | hd3
          · exact tidyInv_appendCont (hacc d0 (List.mem_cons_self d0 ds))
              (jsTrim_dropWhile l) (jsTrim_reverse_dropWhile l) h
          · exact hacc d2 (List.mem_cons_of_mem d0 hd3)

/-! ## Claim theorems: parser and application state -/

/-- A concrete application state used to instantiate theorems. -/
def sampleState : AppState :=
  { status := AppStatus.IDLE
    error := none
    dialogue := [{ speaker := Speaker.user, text := ['h', 'i'] }]
    userConfig := { name := "User", voice := "Kore" }
    assistantConfig := { name := "Assistant", voice := "Puck" }
    audioSession := none }

/-- A concrete application state with an empty dialogue. -/
def emptyDialogueState : AppState :=
  { status := AppStatus.IDLE
    error := none
    dialogue := []
    userConfig := { name := "User", voice := "Kore" }
    assistantConfig := { name := "Assistant", voice := "Puck" }
    audioSession := none }

/-- C4: for every input text, the parser produces one dialogue turn per
(whitespace-trimmed) line matching `^User:\s*(.*)` or `^Assistant:\s*(.*)`
case-insensitively, and every non-matching non-blank line is appended,
space-joined, to the text of the most recently recognized turn (a
non-matching line before any recognized turn has no such turn and is
dropped): `parseMarkdown` coincides with the structural description
`specParse` on the trimmed non-blank lines. -/
theorem c4_parser_structure (text : List Char) :
    parseMarkdown text = specParse (cleanItems (splitLines text)) :=
  parseMarkdown_eq_specParse text

/-- C6: when no line of the input matches a speaker pattern, parsing is a
parse error: the error message is set, the status becomes ERROR, and the
dialogue list and audio session are left untouched (no empty dialogue is
produced). -/
theorem c6_zero_turns_is_error (s : AppState) (text : List Char)
    (h : ∀ l ∈ splitLines text, matchLine (jsTrim l) = none) :
    parseMarkdownUpdate s text =
      { s with
        error := some "No valid \x27User:\x27 or \x27Assistant:\x27 lines found in the file."
        status := AppStatus.ERROR } ∧
    (parseMarkdownUpdate s text).dialogue = s.dialogue ∧
    (parseMarkdownUpdate s text).audioSession = s.audioSession := by
  have hnil : parseMarkdown text = [] := by
    unfold parseMarkdown
    rw [parseRev_nil_of_noMatch (splitLines text) h]
    rfl
  refine ⟨?_, ?_, ?_⟩ <;> simp [parseMarkdownUpdate, hnil]

theorem c6_zero_turns_is_error_witness :
    parseMarkdownUpdate sampleState "hello world".toList =
      { sampleState with
        error := some "No valid \x27User:\x27 or \x27Assistant:\x27 lines found in the file."
        status := AppStatus.ERROR } :=
  (c6_zero_turns_is_error sampleState "hello world".toList (by decide)).1

/-- C8: when at least one line matches a speaker pattern, the parse
succeeds: the parsed turns (a non-empty list) replace the dialogue, the
status returns to IDLE, and the prior audio session is cleared. -/
theorem c8_parse_success_replaces (s : AppState) (text : List Char)
    (h : ∃ l ∈ splitLines text, (matchLine (jsTrim l)).isSome) :
    parseMarkdownUpdate s text =
      { s with
        dialogue := parseMarkdown text
        status := AppStatus.IDLE
        audioSession := none } ∧
    parseMarkdown text ≠ [] := by
  have hne : parseMarkdown text ≠ [] := by
    unfold parseMarkdown
    simp only [ne_eq, List.reverse_eq_nil_iff]
    exact parseRev_ne_nil_of_match (splitLines text) [] h
  exact ⟨by simp [parseMarkdownUpdate, hne], hne⟩

theorem c8_parse_success_replaces_witness :
    parseMarkdownUpdate sampleState "User: hi".toList =
      { sampleState with
        dialogue := parseMarkdown "User: hi".toList
        status := AppStatus.IDLE
        audioSession := none } :=
  (c8_parse_success_replaces sampleState "User: hi".toList (by decide)).1

/-- C9: with an empty dialogue, `handleGenerate` is a no-op — the state
(status, error, audio session included) is returned unchanged and no remote
generation request is issued. -/
theorem c9_empty_dialogue_noop (mkUrl : List ℕ → String) (s : AppState)
    (tts : Except String String) (h : s.dialogue = []) :
    handleGenerate mkUrl s tts = (s, false) := by
  simp [handleGenerate, h]

theorem c9_empty_dialogue_noop_witness :
    handleGenerate (fun _ => "") emptyDialogueState (Except.error "boom") =
      (emptyDialogueState, false) :=
  c9_empty_dialogue_noop (fun _ => "") emptyDialogueState (Except.error "boom") rfl

/-- C5: a failure in any pipeline step leaves the prior audio session
untouched, and no partially built blob is ever exposed: either the pipeline
succeeds and a complete `audioBufferToWav` blob replaces the session, or
the session output does not change. -/
theorem c5_failure_preserves_session (mkUrl : List ℕ → String) (s : AppState)
    (tts : Except String String) :
    (∀ msg, runPipeline tts = Except.error msg →
      ((handleGenerate mkUrl s tts).1).audioSession = s.audioSession) ∧
    (((handleGenerate mkUrl s tts).1).audioSession = s.audioSession ∨
      ∃ buf, runPipeline tts = Except.ok buf ∧
        ((handleGenerate mkUrl s tts).1).audioSession =
          some { buffer := buf, blob := audioBufferToWav buf,
                 url := mkUrl (audioBufferToWav buf) }) := by
  by_cases hd : s.dialogue = []
  · exact ⟨fun msg hmsg => by simp [handleGenerate, hd],
      Or.inl (by simp [handleGenerate, hd])⟩
  · cases hp : runPipeline tts with
    | error msg =>
      exact ⟨fun m hm => by simp [handleGenerate, hd, hp],
        Or.inl (by simp [handleGenerate, hd, hp])⟩
    | ok buf =>
      exact ⟨fun m hm => absurd hm (by simp),
        Or.inr ⟨buf, rfl, by simp [handleGenerate, hd, hp]⟩⟩

theorem c5_failure_preserves_session_witness :
    ((handleGenerate (fun _ => "") sampleState (Except.error "boom")).1).audioSession =
      sampleState.audioSession :=
  (c5_failure_preserves_session (fun _ => "") sampleState (Except.error "boom")).1
    "boom" rfl

/-- C10 (amended): every turn text the parser produces has no trailing
whitespace, and no leading whitespace either — except that a turn whose
recognized line captured an empty text and which then received continuation
lines starts with exactly one space: each text equals its own trim, or a
single space followed by its own trim. -/
theorem c10_text_trim_shape (text : List Char) (d : DialogueLine)
    (hd : d ∈ parseMarkdown text) :
    d.text = jsTrim d.text ∨ d.text = ' ' :: jsTrim d.text := by
  refine tidy_of_inv (parseRev_tidy (splitLines text) [] (by simp) d ?_)
  rw [parseMarkdown] at hd
  exact List.mem_reverse.mp hd

theorem c10_text_trim_shape_witness :
    ['h', 'i'] = jsTrim ['h', 'i'] ∨ ['h', 'i'] = ' ' :: jsTrim ['h', 'i'] :=
  c10_text_trim_shape "User: hi".toList
    { speaker := Speaker.user, text := ['h', 'i'] } (by decide)

/-- C10 (counterexample): on the input "User:\nhello" the single parsed
turn has text " hello", which carries leading whitespace — the claimed
no-leading-whitespace invariant fails. -/
theorem c10_counterexample :
    parseMarkdown "User:\nhello".toList =
      [{ speaker := Speaker.user, text := " hello".toList }] ∧
    jsTrim " hello".toList ≠ " hello".toList := by
  constructor <;> decide

/-! ## Claim theorems: the TTS payload extraction (claim C7) -/

/-- A response whose single candidate carries the given optional payload
string at `candidates[0].content.parts[0].inlineData.data`. -/
def mkResponse (d : Option String) : GenResponse :=
  ⟨some [⟨some ⟨some [⟨some ⟨d⟩⟩]⟩⟩]⟩

/-- A response carrying an empty-string audio payload. -/
def emptyPayloadResponse : GenResponse := mkResponse (some "")

/-- A response carrying the payload "abc". -/
def abcPayloadResponse : GenResponse := mkResponse (some "abc")

/-- C7 (counterexample): a response whose payload field is present but holds
the empty string refutes the claimed equivalence — `generateTTS` fails (the
JavaScript truthiness test `!base64Audio` treats `""` as missing) even
though the response contains an audio payload. -/
theorem c7_counterexample :
    generateTTS emptyPayloadResponse =
      Except.error "No audio data received from Gemini API" ∧
    extractAudioData emptyPayloadResponse = some "" := by
  constructor <;> rfl

/-- C7 (amended): `generateTTS` fails — always with the human-readable
message "No audio data received from Gemini API" — if and only if the
response contains no audio payload or the payload is the empty string; a
non-empty payload is returned unchanged. -/
theorem c7_error_iff_no_payload (r : GenResponse) :
    ((∃ msg, generateTTS r = Except.error msg) ↔
      (extractAudioData r = none ∨ extractAudioData r = some "")) ∧
    (∀ msg, generateTTS r = Except.error msg →
      msg = "No audio data received from Gemini API") ∧
    (∀ d, extractAudioData r = some d → d ≠ "" →
      generateTTS r = Except.ok d) := by
  cases he : extractAudioData r with
  | none => simp [generateTTS, he]
  | some d =>
    by_cases hd : d = ""
    · subst hd
      simp [generateTTS, he]
    · simp [generateTTS, he, hd]

theorem c7_error_iff_no_payload_witness :
    generateTTS abcPayloadResponse = Except.ok "abc" :=
  (c7_error_iff_no_payload abcPayloadResponse).2.2 "abc" rfl (by decide)

/-! ## Audio encoding lemmas (claims C1, C2, C3) -/

theorem int16le_length (v : ℤ) : (int16le v).length = 2 := rfl

theorem flatMap_const_length {α : Type} (f : α → List ℕ) (k : ℕ)
    (h : ∀ a, (f a).length = k) :
    ∀ l : List α, (l.flatMap f).length = l.length * k := by
  intro l
  induction l with
  | nil => simp
  | cons a t ih =>
    rw [List.flatMap_cons, List.length_append, h a, ih, List.length_cons]
    ring

theorem pcmData_length (buf : AudioBuffer) :
    (pcmData buf).length = buf.length * buf.numChannels * 2 := by
  unfold pcmData
  rw [flatMap_const_length _ (buf.numChannels * 2) ?_]
  · rw [List.length_range]
    ring
  · intro i
    rw [flatMap_const_length _ 2 (fun c => int16le_length _)]
    rw [List.length_range]

theorem wavHeader_length (buf : AudioBuffer) : (wavHeader buf).length = 44 := by
  simp [wavHeader, le16, le32]

/-- The data chunk of the produced blob is exactly the PCM bytes. -/
theorem wav_drop_header (buf : AudioBuffer) :
    (audioBufferToWav buf).drop 44 = pcmData buf := by
  unfold audioBufferToWav
  rw [List.drop_left' (wavHeader_length buf)]

theorem clampSample_lb (s : ℚ) : -1 ≤ clampSample s := le_max_left _ _

theorem clampSample_ub (s : ℚ) : clampSample s ≤ 1 :=
  max_le (by norm_num) (min_le_left _ _)

theorem clampSample_of_mem {x : ℚ} (h1 : -1 ≤ x) (h2 : x ≤ 1) :
    clampSample x = x := by
  unfold clampSample
  rw [min_eq_right h2, max_eq_right h1]

theorem clampSample_idem (s : ℚ) : clampSample (clampSample s) = clampSample s :=
  clampSample_of_mem (clampSample_lb s) (clampSample_ub s)

theorem round_le_round {a b : ℚ} (h : a ≤ b) : round a ≤ round b := by
  rw [round_eq, round_eq]
  exact Int.floor_le_floor (by linarith)

theorem encodeSample_lb (s : ℚ) : -32768 ≤ encodeSample s := by
  unfold encodeSample
  by_cases hc : clampSample s < 0
  · rw [if_pos hc]
    have h1 : (-32768 : ℚ) ≤ clampSample s * 32768 := by
      have := clampSample_lb s
      nlinarith
    have h2 : round ((-32768 : ℚ)) ≤ round (clampSample s * 32768) :=
      round_le_round h1
    have h3 : round ((-32768 : ℚ)) = -32768 := by
      rw [show ((-32768 : ℚ)) = ((-32768 : ℤ) : ℚ) by norm_num, round_intCast]
    rw [h3] at h2
    exact h2
  · rw [if_neg hc]
    push_neg at hc
    have h1 : (0 : ℚ) ≤ clampSample s * 32767 := by nlinarith
    have h2 : round ((0 : ℚ)) ≤ round (clampSample s * 32767) := round_le_round h1
    rw [round_zero] at h2
    omega

theorem encodeSample_ub (s : ℚ) : encodeSample s ≤ 32767 := by
  unfold encodeSample
  by_cases hc : clampSample s < 0
  · rw [if_pos hc]
    have h1 : clampSample s * 32768 ≤ 0 := by nlinarith
    have h2 : round (clampSample s * 32768) ≤ round ((0 : ℚ)) := round_le_round h1
    rw [round_zero] at h2
    omega
  · rw [if_neg hc]
    have h1 : clampSample s * 32767 ≤ 32767 := by
      have := clampSample_ub s
      nlinarith
    have h2 : round (clampSample s * 32767) ≤ round ((32767 : ℚ)) :=
      round_le_round h1
    have h3 : round ((32767 : ℚ)) = 32767 := by
      rw [show ((32767 : ℚ)) = ((32767 : ℤ) : ℚ) by norm_num, round_intCast]
    rw [h3] at h2
    exact h2

/-- C2: every sample is first clamped to [-1, 1] and then scaled
asymmetrically — `round(s * 32768)` for negative `s`, `round(s * 32767)`
otherwise; exactly 1 encodes to 32767 and exactly -1 to -32768; values
outside [-1, 1] are clamped to the endpoint encodings before scaling and
the result always stays in the signed 16-bit range (never wrapped). -/
theorem c2_clamp_then_scale :
    (∀ s : ℚ, encodeSample s =
      (if clampSample s < 0 then round (clampSample s * 32768)
       else round (clampSample s * 32767))) ∧
    (∀ s : ℚ, encodeSample s = encodeSample (clampSample s)) ∧
    encodeSample 1 = 32767 ∧
    encodeSample (-1) = -32768 ∧
    (∀ s : ℚ, encodeSample (max 1 s) = 32767) ∧
    (∀ s : ℚ, encodeSample (min (-1) s) = -32768) ∧
    (∀ s : ℚ, -32768 ≤ encodeSample s ∧ encodeSample s ≤ 32767) := by
  refine ⟨fun s => rfl, fun s => ?_, ?_, ?_, fun s => ?_, fun s => ?_,
    fun s => ⟨encodeSample_lb s, encodeSample_ub s⟩⟩
  · show encodeSample s = encodeSample (clampSample s)
    unfold encodeSample
    rw [clampSample_idem]
  · simp [encodeSample, clampSample]
  · simp [encodeSample, clampSample]
    norm_num [round_eq]
  · have hcl : clampSample (max 1 s) = 1 := by
      unfold clampSample
      rw [min_eq_left (le_max_left 1 s), max_eq_right (by norm_num : (-1 : ℚ) ≤ 1)]
    unfold encodeSample
    rw [hcl]
    norm_num [round_eq]
  · have hcl : clampSample (min (-1) s) = -1 := by
      unfold clampSample
      rw [min_eq_right (le_trans (min_le_left (-1) s) (by norm_num)),
        max_eq_left (min_le_left (-1) s)]
    unfold encodeSample
    rw [hcl]
    norm_num [round_eq]

/-- C1: for a mono buffer of 1000 frames at 24000 Hz the blob is the
44-byte header followed by the PCM bytes, and the header encodes, little
endian, ChunkSize 2036 (bytes 244, 7, 0, 0 at offset 4), ByteRate 48000
(bytes 128, 187, 0, 0 at offset 28), BlockAlign 2 (bytes 2, 0 at offset
32) and Subchunk2Size 2000 (bytes 208, 7, 0, 0 at offset 40); the PCM data
is 2000 bytes. -/
theorem c1_wav_header_fields (buf : AudioBuffer) (hc : buf.numChannels = 1)
    (hl : buf.length = 1000) (hr : buf.sampleRate = 24000) :
    audioBufferToWav buf =
      [82, 73, 70, 70, 244, 7, 0, 0, 87, 65, 86, 69,
       102, 109, 116, 32, 16, 0, 0, 0, 1, 0, 1, 0,
       192, 93, 0, 0, 128, 187, 0, 0, 2, 0, 16, 0,
       100, 97, 116, 97, 208, 7, 0, 0] ++ pcmData buf ∧
    (pcmData buf).length = 2000 := by
  constructor
  · unfold audioBufferToWav wavHeader
    rw [hc, hl, hr]
    norm_num [le16, le32]
  · rw [pcmData_length, hc, hl]

/-- A mono buffer of 1000 silent frames at 24000 Hz. -/
def bufThousand : AudioBuffer :=
  { sampleRate := 24000, numChannels := 1, length := 1000,
    channels := [List.replicate 1000 0] }

theorem c1_wav_header_fields_witness :
    audioBufferToWav bufThousand =
      [82, 73, 70, 70, 244, 7, 0, 0, 87, 65, 86, 69,
       102, 109, 116, 32, 16, 0, 0, 0, 1, 0, 1, 0,
       192, 93, 0, 0, 128, 187, 0, 0, 2, 0, 16, 0,
       100, 97, 116, 97, 208, 7, 0, 0] ++ pcmData bufThousand ∧
    (pcmData bufThousand).length = 2000 :=
  c1_wav_header_fields bufThousand rfl rfl rfl

/-! ## Round-trip (claim C3) -/

/-- The mono AudioBuffer holding the given samples at 24000 Hz. -/
def monoBuffer (xs : List ℚ) : AudioBuffer :=
  { sampleRate := 24000, numChannels := 1, length := xs.length, channels := [xs] }

/-- Serializing a 16-bit value and reading it back is the identity on the
signed 16-bit range. -/
theorem int16_roundtrip {v : ℤ} (h1 : -32768 ≤ v) (h2 : v ≤ 32767) :
    int16OfBytes ((int16le v).getD 0 0) ((int16le v).getD 1 0) = v := by
  unfold int16le int16OfBytes
  simp only [List.getD_cons_zero, List.getD_cons_succ]
  have hub : (v % 65536).toNat < 65536 := by omega
  rw [show ((v % 65536).toNat % 256) % 256
        + ((v % 65536).toNat / 256 % 256) * 256 = (v % 65536).toNat by omega]
  split <;> omega

/-- Quantization error of encode-then-decode on one sample in [-1, 1]:
at most 1/65536 for negative samples and at most 3/65536 overall (the
asymmetric scale factors 32767/32768 contribute up to x/32768 for
non-negative x). -/
theorem decode_encode_close {x : ℚ} (h1 : -1 ≤ x) (h2 : x ≤ 1) :
    |((encodeSample x : ℤ) : ℚ) / 32768 - x| ≤ 3 / 65536 := by
  have hcl : clampSample x = x := clampSample_of_mem h1 h2
  have henc : encodeSample x =
      if x < 0 then round (x * 32768) else round (x * 32767) := by
    unfold encodeSample
    rw [hcl]
  by_cases hx : x < 0
  · rw [henc, if_pos hx]
    have hr : |x * 32768 - round (x * 32768)| ≤ 1 / 2 := abs_sub_round (x * 32768)
    rw [abs_le] at hr ⊢
    constructor <;> linarith [hr.1, hr.2]
  · rw [henc, if_neg hx]
    push_neg at hx
    have hr : |x * 32767 - round (x * 32767)| ≤ 1 / 2 := abs_sub_round (x * 32767)
    rw [abs_le] at hr ⊢
    constructor <;> linarith [hr.1, hr.2]

theorem flatMap_pair_getD {α : Type} (f : α → List ℕ)
    (hf : ∀ a, (f a).length = 2) :
    ∀ (l : List α) (i : ℕ) (h : i < l.length),
      (l.flatMap f).getD (2 * i) 0 = (f (l.get ⟨i, h⟩)).getD 0 0 ∧
      (l.flatMap f).getD (2 * i + 1) 0 = (f (l.get ⟨i, h⟩)).getD 1 0 := by
  intro l
  induction l with
  | nil => intro i h; simp at h
  | cons a t ih =>
    intro i h
    cases i with
    | zero =>
      constructor
      · rw [List.flatMap_cons, List.getD_append _ _ _ _ (by rw [hf a]; omega)]
        rfl
      · rw [List.flatMap_cons, List.getD_append _ _ _ _ (by rw [hf a]; omega)]
        rfl
    | succ i2 =>
      have ht : i2 < t.length := Nat.lt_of_succ_lt_succ h
      have e1 : 2 * (i2 + 1) = (f a).length + 2 * i2 := by rw [hf a]; ring
      have e2 : 2 * (i2 + 1) + 1 = (f a).length + (2 * i2 + 1) := by rw [hf a]; ring
      obtain ⟨ih1, ih2⟩ := ih i2 ht
      constructor
      · rw [List.flatMap_cons, e1,
          List.getD_append_right _ _ _ _ (Nat.le_add_right _ _),
          Nat.add_sub_cancel_left]
        exact ih1
      · rw [List.flatMap_cons, e2,
          List.getD_append_right _ _ _ _ (Nat.le_add_right _ _),
          Nat.add_sub_cancel_left]
        exact ih2

theorem range_flatMap_getD {α : Type} (g : α → List ℕ) (d : α) :
    ∀ l : List α,
      (List.range l.length).flatMap (fun i => g (l.getD i d)) = l.flatMap g := by
  intro l
  induction l with
  | nil => simp
  | cons a t ih =>
    conv_rhs => rw [List.flatMap_cons]
    rw [List.length_cons, List.range_succ_eq_map, List.flatMap_cons,
      List.flatMap_map]
    simp only [Function.comp_def, List.getD_cons_succ, List.getD_cons_zero]
    rw [ih]

/-- The PCM data of a mono buffer is its sample list, sample-encoded. -/
theorem pcm_mono (xs : List ℚ) :
    pcmData (monoBuffer xs) = xs.flatMap fun x => int16le (encodeSample x) := by
  have step : pcmData (monoBuffer xs) =
      (List.range xs.length).flatMap fun i => int16le (encodeSample (xs.getD i 0)) := by
    unfold pcmData monoBuffer
    simp [sampleAt, List.flatMap_cons, show List.range 1 = [0] from rfl]
  rw [step]
  exact range_flatMap_getD (fun x => int16le (encodeSample x)) 0 xs

theorem decode_core_mono_length (xs : List ℚ) :
    (decodeAudioDataCore (pcmData (monoBuffer xs)) 24000 1).length = xs.length := by
  show (pcmData (monoBuffer xs)).length / 2 / 1 = xs.length
  rw [pcmData_length]
  show xs.length * 1 * 2 / 2 / 1 = xs.length
  omega

/-- Decoding the mono PCM data reproduces each sample as its encoded value
normalized by 32768. -/
theorem decode_core_mono_sample (xs : List ℚ) (i : ℕ) (h : i < xs.length) :
    sampleAt (decodeAudioDataCore (pcmData (monoBuffer xs)) 24000 1) i 0 =
      ((encodeSample (xs.get ⟨i, h⟩) : ℤ) : ℚ) / 32768 := by
  have hfr : (pcmData (monoBuffer xs)).length / 2 / 1 = xs.length := by
    rw [pcmData_length]
    show xs.length * 1 * 2 / 2 / 1 = xs.length
    omega
  unfold sampleAt decodeAudioDataCore
  simp only [hfr, show List.range 1 = [0] from rfl, List.map_cons, List.map_nil,
    List.getD_cons_zero]
  rw [List.getD_eq_getElem _ _ (by simpa using h), List.getElem_map,
    List.getElem_range]
  rw [show (i * 1 + 0) * 2 = 2 * i by ring, pcm_mono]
  obtain ⟨hb0, hb1⟩ :=
    flatMap_pair_getD (fun x => int16le (encodeSample x)) (fun a => rfl) xs i h
  rw [hb0, hb1,
    int16_roundtrip (encodeSample_lb (xs.get ⟨i, h⟩)) (encodeSample_ub (xs.get ⟨i, h⟩))]

/-- Re-encoding the decoded scenario bytes `[0,0, 255,127, 0,128, 1,0]`
yields `[0,0, 254,127, 0,128, 1,0]`: the sample 32767 decodes to
32767/32768 and re-encodes, via `round(32767/32768 * 32767)`, to 32766. -/
theorem scenario_reencode :
    (audioBufferToWav
        (decodeAudioDataCore [0, 0, 255, 127, 0, 128, 1, 0] 24000 1)).drop 44
      = [0, 0, 254, 127, 0, 128, 1, 0] := by
  rw [wav_drop_header]
  simp [pcmData, decodeAudioDataCore, int16OfBytes, sampleAt, List.range_succ]
  norm_num [encodeSample, clampSample, round_eq, int16le]
  decide

/-- C3 (counterexample): the 8-byte scenario of the spec is not reproduced
exactly — decoding `[0,0, 255,127, 0,128, 1,0]` succeeds, but re-encoding
produces `[0,0, 254,127, 0,128, 1,0]`, which differs from the original in
the second sample (32767 comes back as 32766). -/
theorem c3_counterexample :
    decodeAudioData [0, 0, 255, 127, 0, 128, 1, 0] 24000 1 =
      Except.ok (decodeAudioDataCore [0, 0, 255, 127, 0, 128, 1, 0] 24000 1) ∧
    (audioBufferToWav
        (decodeAudioDataCore [0, 0, 255, 127, 0, 128, 1, 0] 24000 1)).drop 44
      = [0, 0, 254, 127, 0, 128, 1, 0] ∧
    [0, 0, 254, 127, 0, 128, 1, 0] ≠ ([0, 0, 255, 127, 0, 128, 1, 0] : List ℕ) :=
  ⟨rfl, scenario_reencode, by decide⟩

/-- C3 (amended): for a mono buffer with samples in [-1, 1], stripping the
44-byte header and decoding the data chunk reproduces each sample within
3/65536 (= 1.5/32768; the bound 1/32768 claimed by the spec is exceeded by
non-negative samples near 1 because of the asymmetric 32767/32768 scale
factors), and the 8-byte scenario re-encodes to
`[0,0, 254,127, 0,128, 1,0]`, reproducing the original bytes except that
sample 32767 comes back as 32766. -/
theorem c3_roundtrip_amended :
    (∀ xs : List ℚ, (∀ x ∈ xs, -1 ≤ x ∧ x ≤ 1) → xs ≠ [] →
      decodeAudioData ((audioBufferToWav (monoBuffer xs)).drop 44) 24000 1 =
        Except.ok
          (decodeAudioDataCore ((audioBufferToWav (monoBuffer xs)).drop 44) 24000 1) ∧
      (decodeAudioDataCore ((audioBufferToWav (monoBuffer xs)).drop 44) 24000 1).length
        = xs.length ∧
      ∀ i : ℕ, ∀ h : i < xs.length,
        |sampleAt
            (decodeAudioDataCore ((audioBufferToWav (monoBuffer xs)).drop 44) 24000 1)
            i 0
          - xs.get ⟨i, h⟩| ≤ 3 / 65536) ∧
    (audioBufferToWav
        (decodeAudioDataCore [0, 0, 255, 127, 0, 128, 1, 0] 24000 1)).drop 44
      = [0, 0, 254, 127, 0, 128, 1, 0] := by
  constructor
  · intro xs hb hne
    rw [wav_drop_header]
    refine ⟨?_, decode_core_mono_length xs, ?_⟩
    · unfold decodeAudioData
      rw [if_neg ?_]
      rw [pcmData_length]
      show ¬(xs.length * 1 * 2 / 2 / 1 = 0)
      have := List.length_pos.mpr hne
      omega
    · intro i h
      rw [decode_core_mono_sample xs i h]
      have hx := hb (xs.get ⟨i, h⟩) (List.get_mem xs i h)
      exact decode_encode_close hx.1 hx.2
  · exact scenario_reencode

theorem c3_roundtrip_amended_witness :
    |sampleAt
        (decodeAudioDataCore ((audioBufferToWav (monoBuffer [0])).drop 44) 24000 1)
        0 0
      - 0| ≤ 3 / 65536 :=
  ((c3_roundtrip_amended.1 [0] (by decide) (by decide)).2.2) 0 (by decide)
end MD2Voice
